import Mathlib

/-!
Shallow embedding of the guavagrams grid engine
(src/grid/index.rs, src/grid/mod.rs, src/dictionary.rs).

Machine integers are modelled as `Int`/`Nat` with explicit two's-complement
byte arithmetic: an `i8` value is an `Int` (valid when in `[-128, 127]`),
its byte pattern is `value mod 256`; a `u8` is a `Nat` (valid when `< 256`).
-/

namespace Guava

/-- The error enum of `src/main.rs` (the variants the grid engine returns). -/
inductive Error where
  | WordsNotConnected
  | InvalidWord (word : String)
  | NoMoreTiles
  | HandHasTiles
deriving DecidableEq

/-- Two's-complement byte pattern of an `i8` value (`cast_unsigned`). -/
def toByte (x : Int) : Nat :=
  (x % 256).toNat

/-- Reinterpret a byte as an `i8` value (`cast_signed`). -/
def i8ofByte (n : Nat) : Int :=
  if n < 128 then (n : Int) else (n : Int) - 256

/-- Bitwise XOR of two `i8` values (Rust `^` on `i8`): XOR the byte
patterns and reinterpret the result as signed. -/
def i8xor (a b : Int) : Int :=
  i8ofByte (Nat.xor (toByte a) (toByte b))

/-- Wrap an integer into the `i8` range (two's-complement wrapping). -/
def i8wrap (z : Int) : Int :=
  (z + 128) % 256 - 128

/-- Rust `i8::saturating_add`: clamp the exact sum at the `i8` bounds. -/
def i8saturating_add (a b : Int) : Int :=
  if 127 < a + b then 127
  else if a + b < -128 then -128
  else a + b

/-- Rust `i8::overflowing_add`: the wrapped sum, plus a flag telling
whether the wrapped result differs from the exact sum. -/
def i8overflowing_add (a b : Int) : Int × Bool :=
  (i8wrap (a + b), decide (i8wrap (a + b) ≠ a + b))

/-- `Coordinate(pub i8, pub i8)` from src/grid/index.rs. -/
structure Coordinate where
  fst : Int
  snd : Int
deriving DecidableEq

/-- A `Coordinate` whose components are representable `i8` values. -/
def Coordinate.Valid (c : Coordinate) : Prop :=
  -128 ≤ c.fst ∧ c.fst ≤ 127 ∧ -128 ≤ c.snd ∧ c.snd ≤ 127

instance (c : Coordinate) : Decidable c.Valid := by
  unfold Coordinate.Valid; infer_instance

/-- `impl Add for Coordinate`: component-wise `saturating_add`. -/
def Coordinate.add (c d : Coordinate) : Coordinate :=
  ⟨i8saturating_add c.fst d.fst, i8saturating_add c.snd d.snd⟩

/-- `Coordinate::overflowing_add`: component-wise `overflowing_add`,
flag is the disjunction of the component flags. -/
def Coordinate.overflowing_add (c d : Coordinate) : Coordinate × Bool :=
  let x := i8overflowing_add c.fst d.fst
  let y := i8overflowing_add c.snd d.snd
  (⟨x.1, y.1⟩, x.2 || y.2)

/-- `GridIndex(pub u8, pub u8)` from src/grid/index.rs. -/
structure GridIndex where
  fst : Nat
  snd : Nat
deriving DecidableEq

/-- A `GridIndex` whose components are representable `u8` values. -/
def GridIndex.Valid (i : GridIndex) : Prop :=
  i.fst < 256 ∧ i.snd < 256

instance (i : GridIndex) : Decidable i.Valid := by
  unfold GridIndex.Valid; infer_instance

/-- `impl From<Coordinate> for GridIndex` (src/grid/index.rs:83-90),
exactly as written in the source: BOTH components are computed from
`value.0` — `((value.0 ^ i8::MIN).cast_unsigned(), (value.0 ^ i8::MAX).cast_unsigned())`. -/
def GridIndex.ofCoordinate (c : Coordinate) : GridIndex :=
  ⟨toByte (i8xor c.fst (-128)), toByte (i8xor c.fst 127)⟩

/-- `impl From<GridIndex> for Coordinate` (src/grid/index.rs:34-41):
`(value.0.cast_signed() ^ i8::MIN, value.1.cast_signed() ^ i8::MAX)`. -/
def Coordinate.ofGridIndex (i : GridIndex) : Coordinate :=
  ⟨i8xor (i8ofByte i.fst) (-128), i8xor (i8ofByte i.snd) 127⟩

/-- `Grid<T>`: a 256×256 array, modelled as a total function from
(outer, inner) array positions to cell payloads. -/
def Grid (T : Type) : Type :=
  Nat → Nat → T

/-- `Grid::new(filler)`: every cell holds the filler. -/
def Grid.new {T : Type} (filler : T) : Grid T :=
  fun _ _ => filler

/-- `impl Index<GridIndex> for Grid<T>`: `self.0[index.1][index.0]`. -/
def Grid.getI {T : Type} (g : Grid T) (i : GridIndex) : T :=
  g i.snd i.fst

/-- `impl Index<Coordinate> for Grid<T>`: go through `GridIndex::from`. -/
def Grid.getC {T : Type} (g : Grid T) (c : Coordinate) : T :=
  g.getI (GridIndex.ofCoordinate c)

/-- Writing through `impl IndexMut<GridIndex>`: update `self.0[index.1][index.0]`. -/
def Grid.setI {T : Type} (g : Grid T) (i : GridIndex) (v : T) : Grid T :=
  fun r c => if r = i.snd then (if c = i.fst then v else g r c) else g r c

/-- Writing through `impl IndexMut<Coordinate>`: go through `GridIndex::from`. -/
def Grid.setC {T : Type} (g : Grid T) (c : Coordinate) (v : T) : Grid T :=
  g.setI (GridIndex.ofCoordinate c) v

/-- Rust array indexing with its bounds check made explicit: `none`
models an out-of-bounds panic, `some` a successful access. -/
def Grid.checkedGet {T : Type} (g : Grid T) (i : GridIndex) : Option T :=
  if i.snd < 256 ∧ i.fst < 256 then some (g.getI i) else none

/-- The `Direction` enum of src/grid/mod.rs. -/
inductive Direction where
  | none
  | vertical
  | horizontal
  | both
deriving DecidableEq

/-- The playing board: `Grid<Option<char>>`. -/
abbrev Board : Type := Grid (Option Char)

/-- Probe one neighbor as `letter_adjacent` does: `if let (x, false) =
coordinate.overflowing_add(d) { self[x].is_some() } else { false }`. -/
def Grid.probe (g : Board) (c d : Coordinate) : Bool :=
  let r := c.overflowing_add d
  if r.2 then false else (g.getC r.1).isSome

/-- `Grid::letter_adjacent` (src/grid/mod.rs:84-114). -/
def Grid.letter_adjacent (g : Board) (c : Coordinate) : Direction :=
  let horizontal := g.probe c ⟨1, 0⟩ || g.probe c ⟨-1, 0⟩
  let vertical := g.probe c ⟨0, 1⟩ || g.probe c ⟨0, -1⟩
  if horizontal && vertical then Direction.both
  else if horizontal then Direction.horizontal
  else if vertical then Direction.vertical
  else Direction.none

/-- Scanner state: the emitted words and the word being built
(`output`, `current_word`); the current word is kept as its character
list. -/
abbrev ScanState : Type := List String × List Char

/-- The inner `x` loop of the horizontal pass of `scan_for_words`
(src/grid/mod.rs:39-50), as structural recursion on the number of
remaining cells with the column cursor `x` explicit (the loop visits
`x, x+1, …` until the fuel — `256 - x` at every call site — runs out):
occupied cells whose adjacency is not `Vertical` extend the current
word; empty cells flush a non-empty current word. -/
def Grid.hRow (g : Board) (y : Nat) : Nat → Nat → List String → List Char → ScanState
  | 0, _, out, cw => (out, cw)
  | n + 1, x, out, cw =>
      match g.getI ⟨x, y⟩ with
      | some letter =>
          if g.letter_adjacent (Coordinate.ofGridIndex ⟨x, y⟩) ≠ Direction.vertical
          then g.hRow y n (x + 1) out (cw ++ [letter])
          else g.hRow y n (x + 1) out cw
      | Option.none =>
          if cw.isEmpty then g.hRow y n (x + 1) out cw
          else g.hRow y n (x + 1) (out ++ [String.mk cw]) []

/-- The outer `y` loop of the horizontal pass of `scan_for_words`
(src/grid/mod.rs:38-51), with the row cursor explicit; the word in
progress flows across rows exactly as the source's `current_word` does
(it is realized at each row boundary). -/
def Grid.hPass (g : Board) : Nat → Nat → List String → List Char → ScanState
  | 0, _, out, cw => (out, cw)
  | n + 1, y, out, cw =>
      match g.hRow y 256 0 out cw with
      | (out', []) => g.hPass n (y + 1) out' []
      | (out', c :: cs) => g.hPass n (y + 1) out' (c :: cs)

/-- The inner `y` loop of the vertical pass of `scan_for_words`
(src/grid/mod.rs:60-72): occupied cells whose adjacency is not
`Horizontal` extend the current word; an empty cell discards a
length-1 current word and flushes a longer one. -/
def Grid.vCol (g : Board) (x : Nat) : Nat → Nat → List String → List Char → ScanState
  | 0, _, out, cw => (out, cw)
  | n + 1, y, out, cw =>
      match g.getI ⟨x, y⟩ with
      | some letter =>
          if g.letter_adjacent (Coordinate.ofGridIndex ⟨x, y⟩) ≠ Direction.horizontal
          then g.vCol x n (y + 1) out (cw ++ [letter])
          else g.vCol x n (y + 1) out cw
      | Option.none =>
          if cw.length = 1 then g.vCol x n (y + 1) out []
          else if cw.isEmpty then g.vCol x n (y + 1) out cw
          else g.vCol x n (y + 1) (out ++ [String.mk cw]) []

/-- The outer `x` loop of the vertical pass of `scan_for_words`
(src/grid/mod.rs:59-73), with the same carrying of the word in progress
as `hPass`. -/
def Grid.vPass (g : Board) : Nat → Nat → List String → List Char → ScanState
  | 0, _, out, cw => (out, cw)
  | n + 1, x, out, cw =>
      match g.vCol x 256 0 out cw with
      | (out', []) => g.vPass n (x + 1) out' []
      | (out', c :: cs) => g.vPass n (x + 1) out' (c :: cs)

/-- The flush between the two passes (src/grid/mod.rs:53-56) followed by
the vertical pass; matching on the current word realizes it before the
pass starts. -/
def Grid.scanTail (g : Board) (out : List String) : List Char → ScanState
  | [] => g.vPass 256 0 out []
  | c :: cs => g.vPass 256 0 (out ++ [String.mk (c :: cs)]) []

/-- The final flush (src/grid/mod.rs:75-77). -/
def Grid.scanEmit (out : List String) : List Char → List String
  | [] => out
  | c :: cs => out ++ [String.mk (c :: cs)]

/-- `Grid::scan_for_words` (src/grid/mod.rs:33-80): horizontal pass in
row-major order (outer `y`, inner `x`, both from 0 with 256 cells of
fuel), flush of a pending word, then vertical pass in column-major
order (outer `x`, inner `y`), final flush. -/
def Grid.scan_for_words (g : Board) : List String :=
  let st1 := g.hPass 256 0 [] []
  let st2 := g.scanTail st1.1 st1.2
  Grid.scanEmit st2.1 st2.2

/-- `Grid::validate_words` (src/grid/mod.rs:117-124): the vocabulary is
modelled as a list whose membership is the `HashSet` membership. -/
def Grid.validate_words : List String → List String → Except Error Unit
  | [], _ => Except.ok ()
  | w :: ws, dictionary =>
      if dictionary.contains w then Grid.validate_words ws dictionary
      else Except.error (Error.InvalidWord w)

/-- The neighbor order of `Grid::dfs` (src/grid/mod.rs:129-134). -/
def DIRECTIONS : List Coordinate :=
  [⟨1, 0⟩, ⟨-1, 0⟩, ⟨0, 1⟩, ⟨0, -1⟩]

/-- `Grid::dfs` (src/grid/mod.rs:127-146), with explicit fuel standing
for the call stack: the Rust recursion terminates because every call
marks a fresh cell visited, so any fuel of at least 65537 makes the
embedding agree with the source. -/
def Grid.dfs (g : Board) : Nat → Grid Bool → Coordinate → Grid Bool
  | 0, visited, _ => visited
  | fuel + 1, visited, c =>
      let visited := visited.setC c true
      DIRECTIONS.foldl
        (fun visited d =>
          let r := c.overflowing_add d
          if r.2 then visited
          else if (g.getC r.1).isSome && !(visited.getC r.1)
          then g.dfs fuel visited r.1
          else visited)
        visited

/-- `Grid::validate_connectivity` (src/grid/mod.rs:149-183): seed search
with outer `x` and inner `y`, DFS from the seed converted to a
coordinate, then a row-major check that every occupied cell was visited. -/
def Grid.validate_connectivity (g : Board) : Except Error Unit :=
  let start : Option GridIndex :=
    (List.range 256).findSome? (fun x =>
      ((List.range 256).find? (fun y => (g.getI ⟨x, y⟩).isSome)).map
        (fun y => GridIndex.mk x y))
  match start with
  | Option.none => Except.ok ()
  | some index =>
      let visited := g.dfs 65537 (Grid.new false) (Coordinate.ofGridIndex index)
      if (List.range 256).all (fun y => (List.range 256).all (fun x =>
            !((g.getI ⟨x, y⟩).isSome && !(visited.getI ⟨x, y⟩))))
      then Except.ok ()
      else Except.error Error.WordsNotConnected

/-- An unreduced fraction, used to carry the exact value of the `f64`
score computation of `score_grid` (all quantities there are small
rationals, and on the inputs settled below the `f64` rounding error is
far too small to move any truncated result). The denominator is kept
positive by construction. -/
structure Frac where
  num : Int
  den : Int

/-- Embed an integer as a fraction. -/
def Frac.ofInt (n : Int) : Frac :=
  ⟨n, 1⟩

/-- Multiply fractions (no normalization needed for exact values). -/
def Frac.mul (a b : Frac) : Frac :=
  ⟨a.num * b.num, a.den * b.den⟩

/-- `a ^ n` by repeated multiplication, for the stacked ×0.8 penalties. -/
def Frac.pow (a : Frac) : Nat → Frac
  | 0 => ⟨1, 1⟩
  | n + 1 => (Frac.pow a n).mul a

/-- Truncation toward zero, modelling Rust's `as i64` cast of a
non-negative-denominator `f64` value (`Int.tdiv` rounds toward zero). -/
def Frac.trunc (q : Frac) : Int :=
  Int.tdiv q.num q.den

/-- The stale list of `Grid::score_grid` (src/grid/mod.rs:192-196): the
occurrences after the first of each word, in input order (`seen` plays
the `HashSet`). -/
def staleOf (words : List String) : List String :=
  (words.foldl
    (fun (st : List String × List String) w =>
      if w ∈ st.1 then (st.1, st.2 ++ [w]) else (st.1 ++ [w], st.2))
    ([], [])).2

/-- The score of one word in `Grid::score_grid` (src/grid/mod.rs:199-219):
sum of letter values (unknown letters count 0), times the length-tier
multiplier (1–3 ×1.0, 4–6 ×1.5, 7–9 ×2.0, otherwise ×2.5), times one
×0.8 per occurrence of the word in the stale list. -/
def wordScore (scoretable : Char → Option Int) (stale : List String)
    (word : String) : Frac :=
  let base : Int :=
    word.data.foldl (fun acc tile => acc + (scoretable tile).getD 0) 0
  let tier : Frac :=
    if 1 ≤ word.length ∧ word.length ≤ 3 then ⟨1, 1⟩
    else if 4 ≤ word.length ∧ word.length ≤ 6 then ⟨3, 2⟩
    else if 7 ≤ word.length ∧ word.length ≤ 9 then ⟨2, 1⟩
    else ⟨5, 2⟩
  ((Frac.ofInt base).mul tier).mul
    (Frac.pow ⟨4, 5⟩ (stale.countP (fun x => x = word)))

/-- `Grid::score_grid` (src/grid/mod.rs:186-225): sum the truncated word
scores; every word of the input is scored, and the stale penalty applies
to every occurrence of a duplicated word. -/
def Grid.score_grid (words : List String) (scoretable : Char → Option Int) : Int :=
  let stale := staleOf words
  words.foldl (fun change w => change + (wordScore scoretable stale w).trunc) 0

/-- `Distribution::pull_from_pile` (src/dictionary.rs:163-168): returns
the pair of the call's result and the pile after the call. The source
never writes through its `&mut [char]` argument: on success it collects
references to the first `amount` tiles, so the pile is returned
unchanged in both branches. -/
def Distribution.pull_from_pile (pile : List Char) (amount : Nat) :
    Except Error (List Char) × List Char :=
  if pile.length < amount then (Except.error Error.NoMoreTiles, pile)
  else (Except.ok (pile.take amount), pile)

instance : DecidableEq (Except Error Unit) := fun a b =>
  match a, b with
  | Except.ok (), Except.ok () => isTrue rfl
  | Except.error e, Except.error f =>
      match decEq e f with
      | isTrue h => isTrue (by rw [h])
      | isFalse h => isFalse (by intro hh; cases hh; exact h rfl)
  | Except.ok (), Except.error _ => isFalse (by intro h; cases h)
  | Except.error _, Except.ok () => isFalse (by intro h; cases h)

/-- The board of the spec's literal scanning case, built by writing the
letters through the `Coordinate` indexing path exactly as tile placement
does: `h,e,l,l,o` at `(0,0)…(4,0)` and `i` at `(0,-1)`. -/
def helloBoard : Board :=
  ((((((Grid.new Option.none).setC ⟨0, 0⟩ (some 'h')).setC ⟨1, 0⟩ (some 'e')).setC
      ⟨2, 0⟩ (some 'l')).setC ⟨3, 0⟩ (some 'l')).setC ⟨4, 0⟩ (some 'o')).setC
      ⟨0, -1⟩ (some 'i')

/-- `helloBoard` with the six storage indices pre-computed (the
`Coordinate` path maps (0,0)→(128,127), (1,0)→(129,126), (2,0)→(130,125),
(3,0)→(131,124), (4,0)→(132,123) and (0,-1)→(128,127), so the 'i' lands
on the cell of the 'h'); definitionally equal to `helloBoard`. -/
def helloBoardX : Board :=
  ((((((Grid.new Option.none).setI ⟨128, 127⟩ (some 'h')).setI ⟨129, 126⟩ (some 'e')).setI
      ⟨130, 125⟩ (some 'l')).setI ⟨131, 124⟩ (some 'l')).setI ⟨132, 123⟩ (some 'o')).setI
      ⟨128, 127⟩ (some 'i')

/-- A board whose only occupied cell is the storage cell at row 0,
column 0 — a trivially connected singleton set of occupied cells. -/
def lonelyBoard : Board :=
  fun r c => if r = 0 then (if c = 0 then some 'a' else Option.none) else Option.none

/-- The score table of the spec's literal scoring case: `c=3,a=1,b=3`. -/
def cabTable : Char → Option Int :=
  fun t => if t = 'c' then some 3 else if t = 'a' then some 1
    else if t = 'b' then some 3 else Option.none

/-- Wrapping is the identity exactly on the representable `i8` range. -/
theorem i8wrap_eq_self_iff (z : Int) : i8wrap z = z ↔ (-128 ≤ z ∧ z ≤ 127) := by
  unfold i8wrap
  constructor
  · intro h
    have h0 : 0 ≤ (z + 128) % 256 := Int.emod_nonneg _ (by norm_num)
    have h1 : (z + 128) % 256 < 256 := Int.emod_lt_of_pos _ (by norm_num)
    omega
  · intro h
    have : (z + 128) % 256 = z + 128 := Int.emod_eq_of_lt (by omega) (by omega)
    omega

/-- The byte pattern of any integer is a valid `u8`. -/
theorem toByte_lt (z : Int) : toByte z < 256 := by
  unfold toByte
  omega

/-- C1: the claim's round-trip fails on the code. Converting
`Coordinate(0, 1)` to a `GridIndex` and back yields `Coordinate(0, 0)`,
and converting `GridIndex(0, 0)` to a `Coordinate` and back yields
`GridIndex(0, 255)`: `From<Coordinate> for GridIndex` computes both
components from `value.0`, so neither direction round-trips. -/
theorem conversion_no_roundtrip :
    Coordinate.ofGridIndex (GridIndex.ofCoordinate ⟨0, 1⟩) = Coordinate.mk 0 0
    ∧ Coordinate.mk 0 0 ≠ Coordinate.mk 0 1
    ∧ GridIndex.ofCoordinate (Coordinate.ofGridIndex ⟨0, 0⟩) = GridIndex.mk 0 255
    ∧ GridIndex.mk 0 255 ≠ GridIndex.mk 0 0 := by
  decide

/-- Interior loop of the horizontal pass over an all-empty row suffix:
the state passes through unchanged when the current word is empty. -/
theorem hRow_empty_from (g : Board) (y : Nat) :
    ∀ n x out, (∀ x', x ≤ x' → g.getI ⟨x', y⟩ = Option.none) →
      g.hRow y n x out [] = (out, []) := by
  intro n
  induction n with
  | zero => intro x out _; rfl
  | succ n ih =>
      intro x out h
      simp only [Grid.hRow]
      rw [h x (Nat.le_refl x)]
      exact ih (x + 1) out (fun x' hx' => h x' (by omega))

/-- A pending word is flushed at the first empty cell of an all-empty
row suffix, and the rest of the row changes nothing. -/
theorem hRow_flush_from (g : Board) (y : Nat) :
    ∀ n x out c cs, 0 < n → (∀ x', x ≤ x' → g.getI ⟨x', y⟩ = Option.none) →
      g.hRow y n x out (c :: cs) = (out ++ [String.mk (c :: cs)], []) := by
  intro n
  cases n with
  | zero => intro x out c cs h0 _; omega
  | succ n =>
      intro x out c cs _ h
      simp only [Grid.hRow]
      rw [h x (Nat.le_refl x)]
      exact hRow_empty_from g y n (x + 1) (out ++ [String.mk (c :: cs)])
        (fun x' hx' => h x' (by omega))

/-- A row whose only occupied cell sits at column `c0 < 255` (with an
adjacency that is not `Vertical`) contributes exactly the one-letter
word of that cell to the horizontal pass. -/
theorem hRow_single (g : Board) (y c0 : Nat) (L : Char)
    (hc : g.getI ⟨c0, y⟩ = some L)
    (hd : g.letter_adjacent (Coordinate.ofGridIndex ⟨c0, y⟩) ≠ Direction.vertical)
    (he : ∀ x', x' ≠ c0 → g.getI ⟨x', y⟩ = Option.none)
    (hlt : c0 < 255) :
    ∀ n x out, x ≤ c0 → x + n = 256 →
      g.hRow y n x out [] = (out ++ [String.mk [L]], []) := by
  intro n
  induction n with
  | zero => intro x out hx hn; omega
  | succ n ih =>
      intro x out hx hn
      rcases Nat.lt_or_ge x c0 with hx2 | hx2
      · simp only [Grid.hRow]
        rw [he x (by omega)]
        exact ih (x + 1) out (by omega) (by omega)
      · have hx0 : x = c0 := by omega
        subst hx0
        simp only [Grid.hRow]
        rw [hc]
        show (if Grid.letter_adjacent g (Coordinate.ofGridIndex ⟨x, y⟩) ≠ Direction.vertical
            then Grid.hRow g y n (x + 1) out ([] ++ [L])
            else Grid.hRow g y n (x + 1) out []) = (out ++ [String.mk [L]], [])
        rw [if_pos hd, List.nil_append]
        exact hRow_flush_from g y n (x + 1) out L [] (by omega)
          (fun x' hx' => he x' (by omega))

/-- Interior loop of the vertical pass over an all-empty column suffix. -/
theorem vCol_empty_from (g : Board) (x : Nat) :
    ∀ n y out, (∀ y', y ≤ y' → g.getI ⟨x, y'⟩ = Option.none) →
      g.vCol x n y out [] = (out, []) := by
  intro n
  induction n with
  | zero => intro y out _; rfl
  | succ n ih =>
      intro y out h
      simp only [Grid.vCol]
      rw [h y (Nat.le_refl y)]
      exact ih (y + 1) out (fun y' hy' => h y' (by omega))

/-- A pending one-letter word is discarded at the first empty cell of an
all-empty column suffix (the vertical pass drops length-1 runs). -/
theorem vCol_discard_from (g : Board) (x : Nat) :
    ∀ n y out c, 0 < n → (∀ y', y ≤ y' → g.getI ⟨x, y'⟩ = Option.none) →
      g.vCol x n y out [c] = (out, []) := by
  intro n
  cases n with
  | zero => intro y out c h0 _; omega
  | succ n =>
      intro y out c _ h
      simp only [Grid.vCol]
      rw [h y (Nat.le_refl y)]
      exact vCol_empty_from g x n (y + 1) out (fun y' hy' => h y' (by omega))

/-- A column whose only occupied cell sits at row `r0 < 255` (with an
adjacency that is not `Horizontal`) contributes nothing to the vertical
pass: its single letter is read and then discarded as a length-1 run. -/
theorem vCol_single (g : Board) (x r0 : Nat) (L : Char)
    (hc : g.getI ⟨x, r0⟩ = some L)
    (hd : g.letter_adjacent (Coordinate.ofGridIndex ⟨x, r0⟩) ≠ Direction.horizontal)
    (he : ∀ y', y' ≠ r0 → g.getI ⟨x, y'⟩ = Option.none)
    (hlt : r0 < 255) :
    ∀ n y out, y ≤ r0 → y + n = 256 → g.vCol x n y out [] = (out, []) := by
  intro n
  induction n with
  | zero => intro y out hy hn; omega
  | succ n ih =>
      intro y out hy hn
      rcases Nat.lt_or_ge y r0 with hy2 | hy2
      · simp only [Grid.vCol]
        rw [he y (by omega)]
        exact ih (y + 1) out (by omega) (by omega)
      · have hy0 : y = r0 := by omega
        subst hy0
        simp only [Grid.vCol]
        rw [hc]
        show (if Grid.letter_adjacent g (Coordinate.ofGridIndex ⟨x, y⟩) ≠ Direction.horizontal
            then Grid.vCol g x n (y + 1) out ([] ++ [L])
            else Grid.vCol g x n (y + 1) out []) = (out, [])
        rw [if_pos hd, List.nil_append]
        exact vCol_discard_from g x n (y + 1) out L (by omega)
          (fun y' hy' => he y' (by omega))

/-- A block of `k` all-empty rows passes the horizontal-pass state
through unchanged. -/
theorem hPass_empty_block (g : Board) :
    ∀ k m y out, (∀ j x, y ≤ j → j < y + k → g.getI ⟨x, j⟩ = Option.none) →
      g.hPass (k + m) y out [] = g.hPass m (y + k) out [] := by
  intro k
  induction k with
  | zero =>
      intro m y out _
      rw [Nat.zero_add, Nat.add_zero]
  | succ k ih =>
      intro m y out h
      have h1 : k + 1 + m = (k + m) + 1 := by omega
      rw [h1]
      simp only [Grid.hPass]
      rw [hRow_empty_from g y 256 0 out (fun x' _ => h y x' (Nat.le_refl y) (by omega))]
      have h2 := ih m (y + 1) out (fun j x hj1 hj2 => h j x (by omega) (by omega))
      have h3 : y + 1 + k = y + (k + 1) := by omega
      rw [h3] at h2
      exact h2

/-- One step of the horizontal pass over a single-letter row: the row's
word is emitted and the state moves to the next row. -/
theorem hPass_single_step (g : Board) (y c0 : Nat) (L : Char)
    (hc : g.getI ⟨c0, y⟩ = some L)
    (hd : g.letter_adjacent (Coordinate.ofGridIndex ⟨c0, y⟩) ≠ Direction.vertical)
    (he : ∀ x', x' ≠ c0 → g.getI ⟨x', y⟩ = Option.none)
    (hlt : c0 < 255) :
    ∀ n out, g.hPass (n + 1) y out [] = g.hPass n (y + 1) (out ++ [String.mk [L]]) [] := by
  intro n out
  simp only [Grid.hPass]
  rw [hRow_single g y c0 L hc hd he hlt 256 0 out (by omega) (by omega)]

/-- A block of `k` all-empty columns passes the vertical-pass state
through unchanged. -/
theorem vPass_empty_block (g : Board) :
    ∀ k m x out, (∀ j y, x ≤ j → j < x + k → g.getI ⟨j, y⟩ = Option.none) →
      g.vPass (k + m) x out [] = g.vPass m (x + k) out [] := by
  intro k
  induction k with
  | zero =>
      intro m x out _
      rw [Nat.zero_add, Nat.add_zero]
  | succ k ih =>
      intro m x out h
      have h1 : k + 1 + m = (k + m) + 1 := by omega
      rw [h1]
      simp only [Grid.vPass]
      rw [vCol_empty_from g x 256 0 out (fun y' _ => h x y' (Nat.le_refl x) (by omega))]
      have h2 := ih m (x + 1) out (fun j y hj1 hj2 => h j y (by omega) (by omega))
      have h3 : x + 1 + k = x + (k + 1) := by omega
      rw [h3] at h2
      exact h2

/-- One step of the vertical pass over a single-letter column: the
length-1 run is discarded and the state moves on unchanged. -/
theorem vPass_single_step (g : Board) (x r0 : Nat) (L : Char)
    (hc : g.getI ⟨x, r0⟩ = some L)
    (hd : g.letter_adjacent (Coordinate.ofGridIndex ⟨x, r0⟩) ≠ Direction.horizontal)
    (he : ∀ y', y' ≠ r0 → g.getI ⟨x, y'⟩ = Option.none)
    (hlt : r0 < 255) :
    ∀ n out, g.vPass (n + 1) x out [] = g.vPass n (x + 1) out [] := by
  intro n out
  simp only [Grid.vPass]
  rw [vCol_single g x r0 L hc hd he hlt 256 0 out (by omega) (by omega)]

/-- Rows 0–122 of the hello board are empty. -/
theorem helloRowsLow : ∀ j, j < 123 → ∀ x', helloBoardX.getI ⟨x', j⟩ = Option.none := by
  intro j hj x'
  simp [helloBoardX, Grid.setI, Grid.getI, Grid.new,
    show j ≠ 123 from by omega, show j ≠ 124 from by omega,
    show j ≠ 125 from by omega, show j ≠ 126 from by omega,
    show j ≠ 127 from by omega]

/-- Rows 128–255 of the hello board are empty. -/
theorem helloRowsHigh : ∀ j, 128 ≤ j → ∀ x', helloBoardX.getI ⟨x', j⟩ = Option.none := by
  intro j hj x'
  simp [helloBoardX, Grid.setI, Grid.getI, Grid.new,
    show j ≠ 123 from by omega, show j ≠ 124 from by omega,
    show j ≠ 125 from by omega, show j ≠ 126 from by omega,
    show j ≠ 127 from by omega]

/-- Row 123 of the hello board holds only the 'o' at column 132. -/
theorem helloRow123 : ∀ x', x' ≠ 132 → helloBoardX.getI ⟨x', 123⟩ = Option.none := by
  intro x' hx'
  simp [helloBoardX, Grid.setI, Grid.getI, Grid.new, hx']

/-- Row 124 of the hello board holds only the 'l' at column 131. -/
theorem helloRow124 : ∀ x', x' ≠ 131 → helloBoardX.getI ⟨x', 124⟩ = Option.none := by
  intro x' hx'
  simp [helloBoardX, Grid.setI, Grid.getI, Grid.new, hx']

/-- Row 125 of the hello board holds only the 'l' at column 130. -/
theorem helloRow125 : ∀ x', x' ≠ 130 → helloBoardX.getI ⟨x', 125⟩ = Option.none := by
  intro x' hx'
  simp [helloBoardX, Grid.setI, Grid.getI, Grid.new, hx']

/-- Row 126 of the hello board holds only the 'e' at column 129. -/
theorem helloRow126 : ∀ x', x' ≠ 129 → helloBoardX.getI ⟨x', 126⟩ = Option.none := by
  intro x' hx'
  simp [helloBoardX, Grid.setI, Grid.getI, Grid.new, hx']

/-- Row 127 of the hello board holds only the 'i' at column 128 (the 'i'
overwrote the 'h' there). -/
theorem helloRow127 : ∀ x', x' ≠ 128 → helloBoardX.getI ⟨x', 127⟩ = Option.none := by
  intro x' hx'
  simp [helloBoardX, Grid.setI, Grid.getI, Grid.new, hx']

/-- Columns 0–127 of the hello board are empty. -/
theorem helloColsLow : ∀ j, j < 128 → ∀ y', helloBoardX.getI ⟨j, y'⟩ = Option.none := by
  intro j hj y'
  simp [helloBoardX, Grid.setI, Grid.getI, Grid.new,
    show j ≠ 128 from by omega, show j ≠ 129 from by omega,
    show j ≠ 130 from by omega, show j ≠ 131 from by omega,
    show j ≠ 132 from by omega]

/-- Columns 133–255 of the hello board are empty. -/
theorem helloColsHigh : ∀ j, 133 ≤ j → ∀ y', helloBoardX.getI ⟨j, y'⟩ = Option.none := by
  intro j hj y'
  simp [helloBoardX, Grid.setI, Grid.getI, Grid.new,
    show j ≠ 128 from by omega, show j ≠ 129 from by omega,
    show j ≠ 130 from by omega, show j ≠ 131 from by omega,
    show j ≠ 132 from by omega]

/-- Column 128 of the hello board holds only the 'i' at row 127. -/
theorem helloCol128 : ∀ y', y' ≠ 127 → helloBoardX.getI ⟨128, y'⟩ = Option.none := by
  intro y' hy'
  simp [helloBoardX, Grid.setI, Grid.getI, Grid.new, hy']

/-- Column 129 of the hello board holds only the 'e' at row 126. -/
theorem helloCol129 : ∀ y', y' ≠ 126 → helloBoardX.getI ⟨129, y'⟩ = Option.none := by
  intro y' hy'
  simp [helloBoardX, Grid.setI, Grid.getI, Grid.new, hy']

/-- Column 130 of the hello board holds only the 'l' at row 125. -/
theorem helloCol130 : ∀ y', y' ≠ 125 → helloBoardX.getI ⟨130, y'⟩ = Option.none := by
  intro y' hy'
  simp [helloBoardX, Grid.setI, Grid.getI, Grid.new, hy']

/-- Column 131 of the hello board holds only the 'l' at row 124. -/
theorem helloCol131 : ∀ y', y' ≠ 124 → helloBoardX.getI ⟨131, y'⟩ = Option.none := by
  intro y' hy'
  simp [helloBoardX, Grid.setI, Grid.getI, Grid.new, hy']

/-- Column 132 of the hello board holds only the 'o' at row 123. -/
theorem helloCol132 : ∀ y', y' ≠ 123 → helloBoardX.getI ⟨132, y'⟩ = Option.none := by
  intro y' hy'
  simp [helloBoardX, Grid.setI, Grid.getI, Grid.new, hy']

/-- The horizontal pass over the hello board emits the five letters as
five single-letter words, one per occupied row, in row order. -/
theorem helloBoard_hPass :
    helloBoardX.hPass 256 0 [] [] = (["o", "l", "l", "e", "i"], []) := by
  calc helloBoardX.hPass 256 0 [] []
      = helloBoardX.hPass 133 123 [] [] :=
        hPass_empty_block helloBoardX 123 133 0 []
          (fun j x hj1 hj2 => helloRowsLow j (by omega) x)
    _ = helloBoardX.hPass 132 124 ["o"] [] :=
        hPass_single_step helloBoardX 123 132 'o' (by decide) (by decide)
          helloRow123 (by omega) 132 []
    _ = helloBoardX.hPass 131 125 ["o", "l"] [] :=
        hPass_single_step helloBoardX 124 131 'l' (by decide) (by decide)
          helloRow124 (by omega) 131 ["o"]
    _ = helloBoardX.hPass 130 126 ["o", "l", "l"] [] :=
        hPass_single_step helloBoardX 125 130 'l' (by decide) (by decide)
          helloRow125 (by omega) 130 ["o", "l"]
    _ = helloBoardX.hPass 129 127 ["o", "l", "l", "e"] [] :=
        hPass_single_step helloBoardX 126 129 'e' (by decide) (by decide)
          helloRow126 (by omega) 129 ["o", "l", "l"]
    _ = helloBoardX.hPass 128 128 ["o", "l", "l", "e", "i"] [] :=
        hPass_single_step helloBoardX 127 128 'i' (by decide) (by decide)
          helloRow127 (by omega) 128 ["o", "l", "l", "e"]
    _ = (["o", "l", "l", "e", "i"], []) :=
        hPass_empty_block helloBoardX 128 0 128 ["o", "l", "l", "e", "i"]
          (fun j x hj1 hj2 => helloRowsHigh j (by omega) x)

/-- The vertical pass over the hello board adds nothing: each occupied
column holds a single letter, read and then discarded as a length-1 run. -/
theorem helloBoard_vPass :
    helloBoardX.vPass 256 0 ["o", "l", "l", "e", "i"] [] =
      (["o", "l", "l", "e", "i"], []) := by
  calc helloBoardX.vPass 256 0 ["o", "l", "l", "e", "i"] []
      = helloBoardX.vPass 128 128 ["o", "l", "l", "e", "i"] [] :=
        vPass_empty_block helloBoardX 128 128 0 ["o", "l", "l", "e", "i"]
          (fun j y hj1 hj2 => helloColsLow j (by omega) y)
    _ = helloBoardX.vPass 127 129 ["o", "l", "l", "e", "i"] [] :=
        vPass_single_step helloBoardX 128 127 'i' (by decide) (by decide)
          helloCol128 (by omega) 127 ["o", "l", "l", "e", "i"]
    _ = helloBoardX.vPass 126 130 ["o", "l", "l", "e", "i"] [] :=
        vPass_single_step helloBoardX 129 126 'e' (by decide) (by decide)
          helloCol129 (by omega) 126 ["o", "l", "l", "e", "i"]
    _ = helloBoardX.vPass 125 131 ["o", "l", "l", "e", "i"] [] :=
        vPass_single_step helloBoardX 130 125 'l' (by decide) (by decide)
          helloCol130 (by omega) 125 ["o", "l", "l", "e", "i"]
    _ = helloBoardX.vPass 124 132 ["o", "l", "l", "e", "i"] [] :=
        vPass_single_step helloBoardX 131 124 'l' (by decide) (by decide)
          helloCol131 (by omega) 124 ["o", "l", "l", "e", "i"]
    _ = helloBoardX.vPass 123 133 ["o", "l", "l", "e", "i"] [] :=
        vPass_single_step helloBoardX 132 123 'o' (by decide) (by decide)
          helloCol132 (by omega) 123 ["o", "l", "l", "e", "i"]
    _ = (["o", "l", "l", "e", "i"], []) :=
        vPass_empty_block helloBoardX 123 0 133 ["o", "l", "l", "e", "i"]
          (fun j y hj1 hj2 => helloColsHigh j (by omega) y)

/-- C2: scanning the literal board of the spec (h,e,l,l,o written through
the Coordinate indexing path at (0,0)…(4,0) and i at (0,-1)) yields five
single-letter words, not {"hello", "hi"}: the y-ignoring conversion makes
(0,-1) alias (0,0) (so 'i' lands on 'h'), stores each letter in a
distinct row, and makes every occupied cell read as its own vertical
neighbor. -/
theorem scan_hello_board_value :
    helloBoard.scan_for_words = ["o", "l", "l", "e", "i"] := by
  have hbx : helloBoard = helloBoardX := rfl
  rw [hbx]
  show Grid.scanEmit
      (helloBoardX.scanTail (helloBoardX.hPass 256 0 [] []).1
        (helloBoardX.hPass 256 0 [] []).2).1
      (helloBoardX.scanTail (helloBoardX.hPass 256 0 [] []).1
        (helloBoardX.hPass 256 0 [] []).2).2 = ["o", "l", "l", "e", "i"]
  rw [helloBoard_hPass]
  show Grid.scanEmit (helloBoardX.vPass 256 0 ["o", "l", "l", "e", "i"] []).1
      (helloBoardX.vPass 256 0 ["o", "l", "l", "e", "i"] []).2 = ["o", "l", "l", "e", "i"]
  rw [helloBoard_vPass]
  exact rfl

/-- C3: `validate_connectivity` rejects a board whose occupied cells are
the single storage cell `(0, 0)` — a trivially connected singleton — so
`Ok` is not equivalent to "empty or one 4-connected component": the DFS
marks `visited` through the y-ignoring `Coordinate` conversion, at cell
`(0, 255)` instead of `(0, 0)`. -/
theorem connectivity_rejects_singleton :
    lonelyBoard.validate_connectivity = Except.error Error.WordsNotConnected := by
  decide

/-- C4 counterexample: the batch `["cab", "cab"]` with values
`c=3,a=1,b=3` does not score 12, because the code applies the stale
penalty to every occurrence of a duplicated word, not only to the
occurrences beyond the first. -/
theorem score_cab_twice_ne_twelve :
    Grid.score_grid ["cab", "cab"] cabTable ≠ 12 := by
  decide

/-- C4 amended: a single "cab" scores 7; in the batch `["cab", "cab"]`
both occurrences receive one ×0.8 penalty (7 × 0.8 truncated to 5), so
the returned delta is 10. -/
theorem score_cab_batches :
    Grid.score_grid ["cab"] cabTable = 7
    ∧ Grid.score_grid ["cab", "cab"] cabTable = 10 := by
  constructor
  · decide
  · decide

/-- C5 counterexample: `pull_from_pile` on the pile `['a','b']` with
count 1 leaves the pile `['a','b']`, not the `['b']` that removing the
drawn letter would leave — the code never mutates the pile. -/
theorem pull_does_not_remove :
    (Distribution.pull_from_pile ['a', 'b'] 1).2 ≠ List.drop 1 ['a', 'b'] := by
  decide

/-- C5 amended: if the pile holds fewer than `amount` letters the call
returns `NoMoreTiles`, otherwise it returns the first `amount` letters;
in both cases the pile is left unmodified (nothing is removed). -/
theorem pull_from_pile_spec (pile : List Char) (amount : Nat) :
    (Distribution.pull_from_pile pile amount).2 = pile
    ∧ (pile.length < amount →
        (Distribution.pull_from_pile pile amount).1 = Except.error Error.NoMoreTiles)
    ∧ (amount ≤ pile.length →
        (Distribution.pull_from_pile pile amount).1 = Except.ok (pile.take amount)) := by
  unfold Distribution.pull_from_pile
  by_cases h : pile.length < amount
  · refine ⟨by simp [h], fun _ => by simp [h], fun h2 => absurd h2 (by omega)⟩
  · refine ⟨by simp [h], fun h2 => absurd h2 h, fun _ => by simp [h]⟩

/-- C5 witness: the amended statement at the concrete piles of the spec's
exhaustion case. -/
theorem pull_from_pile_spec_inst :
    (Distribution.pull_from_pile ['a', 'b'] 3).1 = Except.error Error.NoMoreTiles
    ∧ (Distribution.pull_from_pile ['a', 'b'] 3).2 = ['a', 'b']
    ∧ (Distribution.pull_from_pile ['a', 'b'] 1).1 = Except.ok ['a'] := by
  refine ⟨(pull_from_pile_spec ['a', 'b'] 3).2.1 (by decide),
    (pull_from_pile_spec ['a', 'b'] 3).1, ?_⟩
  have h := (pull_from_pile_spec ['a', 'b'] 1).2.2 (by decide)
  simpa using h

/-- C6: `validate_words` succeeds exactly when every input word is in
the vocabulary, and otherwise fails with `InvalidWord w` exactly for the
first input word `w` absent from the vocabulary, compared verbatim. -/
theorem validate_words_characterization (words dictionary : List String) :
    (Grid.validate_words words dictionary = Except.ok () ↔
      ∀ w ∈ words, w ∈ dictionary)
    ∧ (∀ w, Grid.validate_words words dictionary = Except.error (Error.InvalidWord w) ↔
        words.find? (fun x => !(dictionary.contains x)) = some w) := by
  induction words with
  | nil =>
    constructor
    · simp [Grid.validate_words]
    · intro v
      simp [Grid.validate_words, List.find?]
  | cons w ws ih =>
    have hcons : Grid.validate_words (w :: ws) dictionary =
        if dictionary.contains w then Grid.validate_words ws dictionary
        else Except.error (Error.InvalidWord w) := rfl
    cases hb : dictionary.contains w with
    | true =>
      have hmem : w ∈ dictionary := List.elem_iff.mp hb
      constructor
      · rw [hcons, if_pos hb, ih.1]
        simp [hmem]
      · intro v
        rw [hcons, if_pos hb, ih.2 v,
          List.find?_cons_of_neg _ (by rw [show List.contains dictionary w = true from hb]; simp)]
    | false =>
      have hne : ¬(dictionary.contains w = true) := by
        rw [hb]; simp
      constructor
      · rw [hcons, if_neg hne]
        constructor
        · intro h
          exact absurd h (by simp)
        · intro hall
          exact absurd (List.elem_iff.mpr (hall w (List.mem_cons_self w ws))) hne
      · intro v
        rw [hcons, if_neg hne,
          List.find?_cons_of_pos _ (by rw [show List.contains dictionary w = false from hb]; simp)]
        constructor
        · intro hh
          cases hh
          rfl
        · intro hh
          cases hh
          rfl

/-- C6 witness: the characterization at the spec's literal dictionary
case — scanning words `["hello", "hi"]` against `{"hello"}` fails with
`InvalidWord "hi"`, and against `{"hello", "hi"}` succeeds. -/
theorem validate_words_characterization_inst :
    Grid.validate_words ["hello", "hi"] ["hello"] =
      Except.error (Error.InvalidWord "hi")
    ∧ Grid.validate_words ["hello", "hi"] ["hello", "hi"] = Except.ok () :=
  ⟨((validate_words_characterization ["hello", "hi"] ["hello"]).2 "hi").mpr (by decide),
   (validate_words_characterization ["hello", "hi"] ["hello", "hi"]).1.mpr (by decide)⟩

/-- C7: for representable coordinates, the `overflowing_add` flag is
`true` exactly when the exact sum of the x components or of the y
components falls outside `[-128, 127]`, and the returned coordinate
holds the wrapped components. -/
theorem overflowing_add_flag_iff (c d : Coordinate)
    (hc : c.Valid) (hd : d.Valid) :
    ((c.overflowing_add d).2 = true ↔
      (c.fst + d.fst < -128 ∨ 127 < c.fst + d.fst
        ∨ c.snd + d.snd < -128 ∨ 127 < c.snd + d.snd))
    ∧ (c.overflowing_add d).1 =
        Coordinate.mk (i8wrap (c.fst + d.fst)) (i8wrap (c.snd + d.snd)) := by
  refine ⟨?_, rfl⟩
  show (decide (i8wrap (c.fst + d.fst) ≠ c.fst + d.fst)
      || decide (i8wrap (c.snd + d.snd) ≠ c.snd + d.snd)) = true ↔ _
  simp only [Bool.or_eq_true, decide_eq_true_eq, Ne, i8wrap_eq_self_iff]
  omega

/-- C7 witness: adding `(1, 0)` to `(127, 0)` overflows and reports it. -/
theorem overflowing_add_flag_iff_inst :
    Coordinate.Valid ⟨127, 0⟩ ∧ Coordinate.Valid ⟨1, 0⟩
    ∧ (Coordinate.overflowing_add ⟨127, 0⟩ ⟨1, 0⟩).2 = true :=
  ⟨by decide, by decide,
    ((overflowing_add_flag_iff ⟨127, 0⟩ ⟨1, 0⟩ (by decide) (by decide)).1).mpr
      (by decide)⟩

/-- C8: coordinate addition saturates component-wise — each component of
the sum is the exact sum clamped into `[-128, 127]`, and the result is
always a representable coordinate (never a wrapped value). -/
theorem add_saturates (c d : Coordinate) :
    (c.add d).fst = max (-128) (min 127 (c.fst + d.fst))
    ∧ (c.add d).snd = max (-128) (min 127 (c.snd + d.snd))
    ∧ (c.add d).Valid := by
  have h1 : ∀ a b : Int, i8saturating_add a b = max (-128) (min 127 (a + b)) := by
    intro a b
    unfold i8saturating_add
    rw [max_def, min_def]
    split_ifs <;> omega
  have h2 : ∀ a b : Int, -128 ≤ i8saturating_add a b ∧ i8saturating_add a b ≤ 127 := by
    intro a b
    unfold i8saturating_add
    split_ifs <;> omega
  exact ⟨h1 _ _, h1 _ _, (h2 _ _).1, (h2 _ _).2, (h2 _ _).1, (h2 _ _).2⟩

/-- C9: indexing is always in-bounds — the `GridIndex` computed from any
`Coordinate` has both components below 256, and the bounds-checked
access succeeds for it and for every `u8`-valid `GridIndex`, so no
out-of-bounds failure is possible through the indexing path. -/
theorem indexing_in_bounds (c : Coordinate) (i : GridIndex) (h : i.Valid)
    (g : Board) :
    (GridIndex.ofCoordinate c).Valid
    ∧ (g.checkedGet (GridIndex.ofCoordinate c)).isSome = true
    ∧ (g.checkedGet i).isSome = true := by
  have hv : (GridIndex.ofCoordinate c).Valid := ⟨toByte_lt _, toByte_lt _⟩
  refine ⟨hv, ?_, ?_⟩
  · unfold Grid.checkedGet
    rw [if_pos ⟨hv.2, hv.1⟩]
    rfl
  · unfold Grid.checkedGet
    rw [if_pos ⟨h.2, h.1⟩]
    rfl

/-- C9 witness: the in-bounds statement at the corner index `(255, 255)`
and the coordinate `(-5, 7)` on an empty board. -/
theorem indexing_in_bounds_inst :
    GridIndex.Valid ⟨255, 255⟩
    ∧ ((Grid.new Option.none : Board).checkedGet
        (GridIndex.ofCoordinate ⟨-5, 7⟩)).isSome = true
    ∧ ((Grid.new Option.none : Board).checkedGet ⟨255, 255⟩).isSome = true :=
  ⟨by decide,
    (indexing_in_bounds ⟨-5, 7⟩ ⟨255, 255⟩ (by decide) (Grid.new Option.none)).2.1,
    (indexing_in_bounds ⟨-5, 7⟩ ⟨255, 255⟩ (by decide) (Grid.new Option.none)).2.2⟩

/-- C10: the `Coordinate` → `GridIndex` conversion depends only on the
x component — both components are `(x XOR i8::MIN) as u8` and
`(x XOR i8::MAX) as u8` — so indexing a grid by a coordinate reads a
cell determined by x alone, independent of y. -/
theorem conversion_ignores_y (x y₁ y₂ : Int) (g : Board) :
    GridIndex.ofCoordinate ⟨x, y₁⟩ = GridIndex.ofCoordinate ⟨x, y₂⟩
    ∧ GridIndex.ofCoordinate ⟨x, y₁⟩ =
        GridIndex.mk (toByte (i8xor x (-128))) (toByte (i8xor x 127))
    ∧ g.getC ⟨x, y₁⟩ = g.getC ⟨x, y₂⟩ :=
  ⟨rfl, rfl, rfl⟩

end Guava
